import Mathlib

/-!
Verification development for the `milo` content-addressed object container.

The serializer registry is embedded from `ml_utils/io/serializers/_registry.py`.
The `Pack` container (dump/load/remove/has_slot, object store, dependency
descriptors) is not present in the sources, only its test suite
(`tests/io_tests/pack_tests.py`) and the design document; those parts are
modelled from the spec, with the test suite as the authority on observable
behaviour.  Python `OrderedDict` / zip-archive entry tables are embedded as
association lists with first-match lookup and replace-in-place update.
-/

namespace Milo

/-- Association-list lookup: the value of the first entry whose key equals `k`.
Embeds both Python dict lookup and reading a named archive entry. -/
def lookupA {κ ν : Type} [DecidableEq κ] (k : κ) : List (κ × ν) → Option ν
  | [] => none
  | e :: es => if e.1 = k then some e.2 else lookupA k es

/-- Association-list update: replace the first entry keyed `k` in place,
or append a fresh entry at the end.  Embeds Python `OrderedDict.__setitem__`
(existing keys keep their position) and writing a named archive entry. -/
def setA {κ ν : Type} [DecidableEq κ] (k : κ) (v : ν) : List (κ × ν) → List (κ × ν)
  | [] => [(k, v)]
  | e :: es => if e.1 = k then (k, v) :: es else e :: setA k v es

/-- A registered serializer, per the serializer capability contract consumed by
`ml_utils/io/serializers/_registry.py`: a stable id, a capability predicate
`can_process`, and an encode/decode pair producing byte strings (bytes are
embedded as `List Nat`). -/
structure Serializer (α : Type) where
  serializer_id : String
  can_process : α → Bool
  serialize : α → List Nat
  deserialize : List Nat → α

/-- The process-wide `__serializers_registry` `OrderedDict`, embedded as an
explicitly threaded association list from serializer id to serializer. -/
abbrev Registry (α : Type) := List (String × Serializer α)

/-- Error taxonomy: the exception classes of `_registry.py` and `mlio.io.exc`
that the embedded operations can surface. -/
inductive Err where
  | UnknownObjectType
  | UnknownSerializer
  | SlotKeyError
  | MLIOPackSlotWrongChecksum
  | MLIODependenciesNotSatisfied
deriving DecidableEq, Repr

/-- The first serializer in the given order whose `can_process` accepts `o`
(the loop body of `find_suitable_serializer`). -/
def findFirstSuitable {α : Type} (o : α) : List (Serializer α) → Option (Serializer α)
  | [] => none
  | s :: ss => if s.can_process o then some s else findFirstSuitable o ss

/-- Embeds `find_suitable_serializer` of `_registry.py`: walk the registry
values in insertion order, return the first serializer whose `can_process`
accepts the object, and raise `UnknownObjectType` when none does. -/
def find_suitable_serializer {α : Type} (reg : Registry α) (o : α) :
    Except Err (Serializer α) :=
  match findFirstSuitable o (reg.map Prod.snd) with
  | some s => .ok s
  | none => .error .UnknownObjectType

/-- Embeds `get_serializer_by_id` of `_registry.py`: exact id lookup, raising
`UnknownSerializer` when the id is not a key of the registry. -/
def get_serializer_by_id {α : Type} (reg : Registry α) (serializer_id : String) :
    Except Err (Serializer α) :=
  match lookupA serializer_id reg with
  | some s => .ok s
  | none => .error .UnknownSerializer

/-- Embeds `register_serializer` of `_registry.py`:
`__serializers_registry[serializer.serializer_id()] = serializer` followed by
`return serializer`.  The `OrderedDict` assignment keeps an existing id at its
position and appends a new id at the end. -/
def register_serializer {α : Type} (reg : Registry α) (s : Serializer α) :
    Registry α × Serializer α :=
  (setA s.serializer_id s reg, s)

/-- Registering a list of serializers in order into a starting registry, used
to express "the ids that have ever been registered". -/
def registerAll {α : Type} (reg : Registry α) : List (Serializer α) → Registry α
  | [] => reg
  | s :: ss => registerAll (register_serializer reg s).1 ss

/-- Modelled from the spec: a `ModuleVersionContextDependency` (the dependency
descriptor of `mlio.io.context_dependencies.module_version`, absent from the
sources) holds a module identifier and a version constraint string; the tests
use exact-equality constraints of the form `"==<version>"`. -/
structure ModuleVersionContextDependency where
  module_name : String
  version_spec : String
deriving DecidableEq, Repr

/-- Modelled from the spec: the stable dependency id used as mapping key, so
duplicate constraints on the same module collapse. -/
def ModuleVersionContextDependency.dependency_id
    (d : ModuleVersionContextDependency) : String :=
  d.module_name ++ d.version_spec

/-- Modelled from the spec: `is_satisfied` queries the installed version of
the module through the external version-query capability (embedded as
`env : String → Option String`, `none` signalling an absent module) and
evaluates the constraint; an absent module is unsatisfied, and an
`"==<version>"` constraint is satisfied exactly by that installed version. -/
def ModuleVersionContextDependency.is_satisfied
    (d : ModuleVersionContextDependency) (env : String → Option String) : Bool :=
  match env d.module_name with
  | none => false
  | some v => decide ("==" ++ v = d.version_spec)

/-- Modelled from the spec: a Slot Index record: the content hash naming the
referenced object-store entry, the checksum of the stored bytes, the id of the
serializer that produced them, and the attached dependency descriptors keyed
by dependency id. -/
structure Slot where
  pack_object : List Nat
  checksum : List Nat
  serializer_id : String
  dependencies : List (String × ModuleVersionContextDependency)
deriving DecidableEq, Repr

/-- Modelled from the spec: the in-memory state of an open Pack: the Slot
Index (slot key to Slot record; a Python key may be `None`, embedded as
`Option String`) and the object store, the table of named binary entries of
the underlying archive (entry name = content hash, entry content = bytes;
a zero-length content is the erase tombstone). -/
structure Pack where
  slots : List (Option String × Slot)
  objects : List (List Nat × List Nat)
deriving DecidableEq, Repr

/-- Modelled from the spec: the content hash of serialized bytes, which names
the object-store entry.  The spec requires one physical entry per distinct
content, i.e. the digest is treated as collision-free, so it is embedded as an
injective digest (the identity on byte strings). -/
def hashBytes (b : List Nat) : List Nat := b

/-- Modelled from the spec: the integrity checksum over stored bytes, checked
at load as a step distinct from hash addressing.  Like the hash it is treated
as collision-free and embedded as an injective digest. -/
def checksumBytes (b : List Nat) : List Nat := b

/-- Modelled from the spec: key `None` or the empty string is never a valid
slot key. -/
def validKey : Option String → Bool
  | none => false
  | some s => decide (s ≠ "")

/-- Modelled from the spec: whether the object store currently has a non-empty
entry under this name (zero-length-erased entries count as absent). -/
def hasEntry (objects : List (List Nat × List Nat)) (h : List Nat) : Bool :=
  match lookupA h objects with
  | some b => !b.isEmpty
  | none => false

/-- Modelled from the spec: `has_slot(key)` is a pure query, false for `None`,
the empty string, or an unknown key, and never raises. -/
def Pack.has_slot (p : Pack) (key : Option String) : Bool :=
  validKey key && (lookupA key p.slots).isSome

/-- Modelled from the spec: the membership test (`key in pack`) answers the
same query as `has_slot`. -/
def Pack.contains (p : Pack) (key : Option String) : Bool :=
  p.has_slot key

/-- Modelled from the spec: `dump(key, obj)` rejects an invalid or duplicate
key with `SlotKeyError` before anything else, resolves a serializer through
the registry, encodes the object, computes checksum and content hash, writes
the entry only when no non-empty entry with that hash exists (deduplication),
and records the new slot with an empty dependency set. -/
def Pack.dump {α : Type} (p : Pack) (reg : Registry α) (key : Option String)
    (o : α) : Except Err Pack :=
  if validKey key = false then .error .SlotKeyError
  else if (lookupA key p.slots).isSome then .error .SlotKeyError
  else
    match find_suitable_serializer reg o with
    | .error e => .error e
    | .ok s =>
      let b := s.serialize o
      let h := hashBytes b
      let objects := if hasEntry p.objects h then p.objects else setA h b p.objects
      .ok { slots := p.slots ++ [(key, ⟨h, checksumBytes b, s.serializer_id, []⟩)],
            objects := objects }

/-- Modelled from the spec: `load(key)` fails with `SlotKeyError` on an
invalid or unknown key, reads the slot, fetches the entry bytes (an absent or
zero-length-erased entry is entry-not-found), recomputes the checksum and
fails with `MLIOPackSlotWrongChecksum` on mismatch, then evaluates every
attached dependency and fails with `MLIODependenciesNotSatisfied` if any is
unsatisfied, and only then resolves the serializer by id and decodes. -/
def Pack.load {α : Type} (p : Pack) (reg : Registry α)
    (env : String → Option String) (key : Option String) : Except Err α :=
  if validKey key = false then .error .SlotKeyError
  else
    match lookupA key p.slots with
    | none => .error .SlotKeyError
    | some slot =>
      match lookupA slot.pack_object p.objects with
      | none => .error .SlotKeyError
      | some b =>
        if b.isEmpty then .error .SlotKeyError
        else if checksumBytes b ≠ slot.checksum then .error .MLIOPackSlotWrongChecksum
        else if slot.dependencies.any (fun d => !(d.2.is_satisfied env)) then
          .error .MLIODependenciesNotSatisfied
        else
          match get_serializer_by_id reg slot.serializer_id with
          | .error e => .error e
          | .ok s => .ok (s.deserialize b)

/-- Modelled from the spec and the test suite: `remove(key)` fails with
`SlotKeyError` on an invalid or unknown key, deletes the slot from the index,
and erases (tombstones to zero length) the referenced object-store entry when
no remaining slot references that content hash.  The test
`test_dump_same_object_and_remove_one_slot` requires an entry still referenced
by another slot to survive a remove, so the erase is reference-guarded. -/
def Pack.remove (p : Pack) (key : Option String) : Except Err Pack :=
  if validKey key = false then .error .SlotKeyError
  else
    match lookupA key p.slots with
    | none => .error .SlotKeyError
    | some slot =>
      let slots := p.slots.filter (fun e => decide (e.1 ≠ key))
      let objects :=
        if slots.any (fun e => decide (e.2.pack_object = slot.pack_object)) then p.objects
        else setA slot.pack_object [] p.objects
      .ok { slots := slots, objects := objects }

/-- Modelled from the spec: `_existing_pack_objects` enumerates the names of
all non-empty object-store entries (erased tombstones are excluded). -/
def Pack.existing_pack_objects (p : Pack) : List (List Nat) :=
  (p.objects.filter (fun e => !e.2.isEmpty)).map Prod.fst

/-- Modelled from the spec: the content hashes referenced by the slots. -/
def Pack.referenced_objects (p : Pack) : List (List Nat) :=
  p.slots.map (fun e => e.2.pack_object)

/-- Erase every named entry in the given list to a zero-length tombstone. -/
def eraseAll (objects : List (List Nat × List Nat)) :
    List (List Nat) → List (List Nat × List Nat)
  | [] => objects
  | h :: hs => eraseAll (setA h [] objects) hs

/-- Modelled from the spec: `_cleanup_dangling_pack_objects` computes the
dangling entries (non-empty entries referenced by no slot), erases them, and
returns the list of removed identifiers. -/
def Pack.cleanup_dangling_pack_objects (p : Pack) : Pack × List (List Nat) :=
  let dangling :=
    p.existing_pack_objects.filter (fun h => !decide (h ∈ p.referenced_objects))
  ({ p with objects := eraseAll p.objects dangling }, dangling)

/-- A concrete serializer over `List Nat` objects used to instantiate the
theorems: accepts everything, prepends a tag byte on encode, strips it on
decode (so encoded bytes are never empty and round-trip). -/
def rawSerializer : Serializer (List Nat) :=
  ⟨"raw", fun _ => true, fun x => 0 :: x, fun b => b.tail⟩

/-- A second concrete serializer that only accepts non-empty lists, used to
exercise registration-order-sensitive dispatch. -/
def pickySerializer : Serializer (List Nat) :=
  ⟨"picky", fun x => decide (x ≠ []), fun x => 1 :: x, fun b => b.tail⟩

/-- A one-serializer registry for concrete instantiations. -/
def testReg : Registry (List Nat) := [("raw", rawSerializer)]

/-- The state of a Pack freshly opened on an empty stream. -/
def emptyPack : Pack := ⟨[], []⟩

/-- A serializer with the same id as `rawSerializer` but different behaviour,
used to exercise idempotent re-registration. -/
def rawSerializer2 : Serializer (List Nat) :=
  ⟨"raw", fun _ => false, fun x => 2 :: x, fun b => b.tail⟩

/-- A registry with the picky serializer registered before the raw one. -/
def twoReg : Registry (List Nat) := [("picky", pickySerializer), ("raw", rawSerializer)]

/-- A registry with the raw serializer registered before the picky one. -/
def regRawFirst : Registry (List Nat) := [("raw", rawSerializer), ("picky", pickySerializer)]

/-- The pack state after dumping `[1]` into slot `"slot1"` of an empty pack. -/
def packA : Pack :=
  ⟨[(some "slot1", ⟨[0, 1], [0, 1], "raw", []⟩)], [([0, 1], [0, 1])]⟩

/-- The pack state after additionally dumping `[1]` into slot `"slot2"`: both
slots share the single deduplicated object-store entry. -/
def sharedPack : Pack :=
  ⟨[(some "slot1", ⟨[0, 1], [0, 1], "raw", []⟩),
    (some "slot2", ⟨[0, 1], [0, 1], "raw", []⟩)],
   [([0, 1], [0, 1])]⟩

/-- The dependency descriptor injected by `test_load_unsatisfied_dependencies`:
module `moduleone` constrained to `==1.1.0`. -/
def depOne : ModuleVersionContextDependency := ⟨"moduleone", "==1.1.0"⟩

/-- The mocked environment of `test_load_unsatisfied_dependencies`: `moduleone`
is installed at version `2.1.0`. -/
def envTwo : String → Option String :=
  fun m => if m = "moduleone" then some "2.1.0" else none

/-- `packA` with `depOne` injected into the dependencies of slot `"slot1"`. -/
def packDep : Pack :=
  ⟨[(some "slot1", ⟨[0, 1], [0, 1], "raw", [(depOne.dependency_id, depOne)]⟩)],
   [([0, 1], [0, 1])]⟩

/-- The pack state after dumping `[1]` into `"slot1"` and `[2]` into
`"slot2"`: two slots referencing two distinct object-store entries. -/
def packTwoObjs : Pack :=
  ⟨[(some "slot1", ⟨[0, 1], [0, 1], "raw", []⟩),
    (some "slot2", ⟨[0, 2], [0, 2], "raw", []⟩)],
   [([0, 1], [0, 1]), ([0, 2], [0, 2])]⟩

/-- `packTwoObjs` after removing `"slot2"`: the slot is gone and its entry is
tombstoned to zero length under its original name. -/
def packTombstone : Pack :=
  ⟨[(some "slot1", ⟨[0, 1], [0, 1], "raw", []⟩)],
   [([0, 1], [0, 1]), ([0, 2], [])]⟩

/-- Modelled from the spec scenario of `test_load_invalid_hash`: overwrite the
content of a named object-store entry in place (the test does this with
`_zip_fh.writestr` on the entry name held in the slot), leaving the Slot Index
untouched. -/
def Pack.corruptObject (p : Pack) (h bad : List Nat) : Pack :=
  { p with objects := setA h bad p.objects }

@[simp] theorem lookupA_nil {κ ν : Type} [DecidableEq κ] (k : κ) :
    lookupA (ν := ν) k [] = none := rfl

@[simp] theorem lookupA_cons {κ ν : Type} [DecidableEq κ] (k : κ) (e : κ × ν)
    (es : List (κ × ν)) :
    lookupA k (e :: es) = if e.1 = k then some e.2 else lookupA k es := rfl

@[simp] theorem setA_nil {κ ν : Type} [DecidableEq κ] (k : κ) (v : ν) :
    setA k v [] = [(k, v)] := rfl

@[simp] theorem setA_cons {κ ν : Type} [DecidableEq κ] (k : κ) (v : ν) (e : κ × ν)
    (es : List (κ × ν)) :
    setA k v (e :: es) = if e.1 = k then (k, v) :: es else e :: setA k v es := rfl

theorem lookupA_setA_self {κ ν : Type} [DecidableEq κ] (k : κ) (v : ν)
    (l : List (κ × ν)) : lookupA k (setA k v l) = some v := by
  induction l with
  | nil => simp
  | cons e es ih =>
    by_cases h : e.1 = k <;> simp [h, ih]

theorem lookupA_setA_ne {κ ν : Type} [DecidableEq κ] {k k' : κ} (v : ν)
    (l : List (κ × ν)) (hne : k' ≠ k) :
    lookupA k' (setA k v l) = lookupA k' l := by
  induction l with
  | nil =>
    have h2 : ¬(k = k') := fun h => hne h.symm
    simp [h2]
  | cons e es ih =>
    by_cases h : e.1 = k
    · subst h
      have h2 : ¬(e.1 = k') := fun h => hne h.symm
      simp [h2]
    · simp only [setA_cons, if_neg h, lookupA_cons]
      by_cases h' : e.1 = k' <;> simp [h', ih]

theorem lookupA_append {κ ν : Type} [DecidableEq κ] (k : κ)
    (l₁ l₂ : List (κ × ν)) :
    lookupA k (l₁ ++ l₂) =
      match lookupA k l₁ with
      | some v => some v
      | none => lookupA k l₂ := by
  induction l₁ with
  | nil => simp
  | cons e es ih =>
    by_cases h : e.1 = k <;> simp [h, ih]

theorem lookupA_eq_none_iff {κ ν : Type} [DecidableEq κ] (k : κ)
    (l : List (κ × ν)) : lookupA k l = none ↔ ∀ e ∈ l, e.1 ≠ k := by
  induction l with
  | nil => simp
  | cons e es ih =>
    by_cases h : e.1 = k <;> simp [h, ih]

theorem lookupA_mem {κ ν : Type} [DecidableEq κ] {k : κ} {v : ν}
    {l : List (κ × ν)} (h : lookupA k l = some v) : (k, v) ∈ l := by
  induction l with
  | nil => simp at h
  | cons e es ih =>
    by_cases he : e.1 = k
    · simp only [lookupA_cons, if_pos he, Option.some.injEq] at h
      obtain ⟨e1, e2⟩ := e
      simp only at he h
      subst he
      subst h
      exact List.mem_cons_self _ _
    · simp only [lookupA_cons, if_neg he] at h
      exact List.mem_cons_of_mem _ (ih h)

theorem lookupA_of_mem_nodup {κ ν : Type} [DecidableEq κ] {k : κ} {v : ν}
    {l : List (κ × ν)} (hnd : (l.map Prod.fst).Nodup) (hm : (k, v) ∈ l) :
    lookupA k l = some v := by
  induction l with
  | nil => simp at hm
  | cons e es ih =>
    simp only [List.map_cons, List.nodup_cons] at hnd
    rcases List.mem_cons.mp hm with h | h
    · subst h
      simp
    · have hk : e.1 ≠ k := by
        intro hek
        exact hnd.1 (hek ▸ (List.mem_map.mpr ⟨(k, v), h, rfl⟩))
      simp [hk, ih hnd.2 h]

theorem keys_setA_of_mem {κ ν : Type} [DecidableEq κ] {k : κ} (v : ν)
    {l : List (κ × ν)} (h : k ∈ l.map Prod.fst) :
    (setA k v l).map Prod.fst = l.map Prod.fst := by
  induction l with
  | nil => simp at h
  | cons e es ih =>
    by_cases he : e.1 = k
    · simp [he]
    · have : k ∈ es.map Prod.fst := by
        rcases List.mem_map.mp h with ⟨p, hp, hpk⟩
        rcases List.mem_cons.mp hp with h' | h'
        · exact absurd (h' ▸ hpk) he
        · exact List.mem_map.mpr ⟨p, h', hpk⟩
      simp [he, ih this]

theorem keys_setA_of_not_mem {κ ν : Type} [DecidableEq κ] {k : κ} (v : ν)
    {l : List (κ × ν)} (h : k ∉ l.map Prod.fst) :
    (setA k v l).map Prod.fst = l.map Prod.fst ++ [k] := by
  induction l with
  | nil => simp
  | cons e es ih =>
    simp only [List.map_cons, List.mem_cons] at h
    push_neg at h
    simp [Ne.symm h.1, ih h.2]

theorem mem_keys_setA {κ ν : Type} [DecidableEq κ] (k k' : κ) (v : ν)
    (l : List (κ × ν)) :
    k' ∈ (setA k v l).map Prod.fst ↔ k' = k ∨ k' ∈ l.map Prod.fst := by
  by_cases h : k ∈ l.map Prod.fst
  · rw [keys_setA_of_mem v h]
    constructor
    · exact Or.inr
    · rintro (rfl | hm)
      · exact h
      · exact hm
  · rw [keys_setA_of_not_mem v h]
    simp [or_comm]

theorem nodup_keys_setA {κ ν : Type} [DecidableEq κ] (k : κ) (v : ν)
    {l : List (κ × ν)} (hnd : (l.map Prod.fst).Nodup) :
    ((setA k v l).map Prod.fst).Nodup := by
  by_cases h : k ∈ l.map Prod.fst
  · rwa [keys_setA_of_mem v h]
  · rw [keys_setA_of_not_mem v h, List.nodup_append]
    refine ⟨hnd, List.nodup_singleton _, ?_⟩
    intro a ha hb
    simp only [List.mem_singleton] at hb
    subst hb
    exact h ha

theorem mem_setA {κ ν : Type} [DecidableEq κ] {k : κ} {v : ν} {e : κ × ν}
    {l : List (κ × ν)} (h : e ∈ setA k v l) : e = (k, v) ∨ e ∈ l := by
  induction l with
  | nil => simpa using h
  | cons e' es ih =>
    by_cases he : e'.1 = k
    · simp only [setA_cons, if_pos he, List.mem_cons] at h
      rcases h with h | h
      · exact Or.inl h
      · exact Or.inr (List.mem_cons_of_mem _ h)
    · simp only [setA_cons, if_neg he, List.mem_cons] at h
      rcases h with h | h
      · exact Or.inr (h ▸ List.mem_cons_self _ _)
      · rcases ih h with h' | h'
        · exact Or.inl h'
        · exact Or.inr (List.mem_cons_of_mem _ h')

theorem count_named_one_of_nodup {κ ν : Type} [DecidableEq κ] {k : κ} {v : ν}
    {l : List (κ × ν)} (hnd : (l.map Prod.fst).Nodup)
    (h : lookupA k l = some v) :
    (l.filter (fun e => decide (e.1 = k))).length = 1 := by
  induction l with
  | nil => simp at h
  | cons e es ih =>
    simp only [List.map_cons, List.nodup_cons] at hnd
    by_cases he : e.1 = k
    · have : es.filter (fun e => decide (e.1 = k)) = [] := by
        refine List.filter_eq_nil_iff.mpr ?_
        intro a ha
        simp only [decide_eq_true_eq]
        intro hak
        exact hnd.1 (he ▸ hak ▸ (List.mem_map.mpr ⟨a, ha, rfl⟩))
      simp [he, List.filter_cons, this]
    · simp only [lookupA_cons, if_neg he] at h
      simp [List.filter_cons, he, ih hnd.2 h]

theorem findFirstSuitable_eq_none_iff {α : Type} (o : α) (ss : List (Serializer α)) :
    findFirstSuitable o ss = none ↔ ∀ s ∈ ss, s.can_process o = false := by
  induction ss with
  | nil => simp [findFirstSuitable]
  | cons s ss ih =>
    by_cases h : s.can_process o <;> simp [findFirstSuitable, h, ih]

theorem findFirstSuitable_mem {α : Type} {o : α} {s : Serializer α}
    {ss : List (Serializer α)} (h : findFirstSuitable o ss = some s) :
    s ∈ ss ∧ s.can_process o = true := by
  induction ss with
  | nil => simp [findFirstSuitable] at h
  | cons s' ss ih =>
    by_cases h' : s'.can_process o
    · simp only [findFirstSuitable, if_pos h', Option.some.injEq] at h
      subst h
      exact ⟨List.mem_cons_self _ _, h'⟩
    · simp only [findFirstSuitable, if_neg h'] at h
      obtain ⟨hm, hc⟩ := ih h
      exact ⟨List.mem_cons_of_mem _ hm, hc⟩

theorem findFirstSuitable_append_skip {α : Type} (o : α)
    {pre : List (Serializer α)} (hpre : ∀ s ∈ pre, s.can_process o = false)
    (rest : List (Serializer α)) :
    findFirstSuitable o (pre ++ rest) = findFirstSuitable o rest := by
  induction pre with
  | nil => simp
  | cons s ss ih =>
    have hs : s.can_process o = false := hpre s (List.mem_cons_self _ _)
    have hss : ∀ s' ∈ ss, s'.can_process o = false :=
      fun s' h => hpre s' (List.mem_cons_of_mem _ h)
    simp [findFirstSuitable, hs, ih hss]

theorem mem_keys_registerAll {α : Type} (i : String) (reg : Registry α)
    (ss : List (Serializer α)) :
    i ∈ (registerAll reg ss).map Prod.fst ↔
      i ∈ reg.map Prod.fst ∨ i ∈ ss.map Serializer.serializer_id := by
  induction ss generalizing reg with
  | nil => simp [registerAll]
  | cons s ss ih =>
    simp only [registerAll, register_serializer, ih, mem_keys_setA,
      List.map_cons, List.mem_cons]
    tauto

theorem entries_registerAll {α : Type} (reg : Registry α)
    (ss : List (Serializer α)) {e : String × Serializer α}
    (he : e ∈ registerAll reg ss) :
    e ∈ reg ∨ (e.2 ∈ ss ∧ e.2.serializer_id = e.1) := by
  induction ss generalizing reg with
  | nil => exact Or.inl he
  | cons s ss ih =>
    rcases ih _ he with h | h
    · rcases mem_setA h with h' | h'
      · subst h'
        exact Or.inr ⟨List.mem_cons_self _ _, rfl⟩
      · exact Or.inl h'
    · exact Or.inr ⟨List.mem_cons_of_mem _ h.1, h.2⟩

example : emptyPack.dump testReg (some "slot1") [1] =
    .ok ⟨[(some "slot1", ⟨[0, 1], [0, 1], "raw", []⟩)], [([0, 1], [0, 1])]⟩ := by
  rfl

example :
    (Pack.mk [(some "slot1", ⟨[0, 1], [0, 1], "raw", []⟩)] [([0, 1], [0, 1])]).load
      testReg (fun _ => none) (some "slot1") = .ok [1] := by
  rfl

example : emptyPack.load testReg (fun _ => none) (some "x") = .error .SlotKeyError := by
  rfl

theorem lookupA_filter_ne {κ ν : Type} [DecidableEq κ] {k k' : κ} (hne : k' ≠ k)
    (l : List (κ × ν)) :
    lookupA k' (l.filter (fun e => decide (e.1 ≠ k))) = lookupA k' l := by
  induction l with
  | nil => rfl
  | cons e es ih =>
    rw [List.filter_cons]
    by_cases h : e.1 = k
    · rw [if_neg (by simp [h]), ih, lookupA_cons,
        if_neg (fun hh : e.1 = k' => hne (h ▸ hh.symm))]
    · rw [if_pos (by simp [h]), lookupA_cons, lookupA_cons]
      by_cases h' : e.1 = k'
      · rw [if_pos h', if_pos h']
      · rw [if_neg h', if_neg h', ih]

theorem lookupA_eq_none_of_not_mem_keys {κ ν : Type} [DecidableEq κ] {k : κ}
    {l : List (κ × ν)} (h : k ∉ l.map Prod.fst) : lookupA k l = none :=
  (lookupA_eq_none_iff k l).mpr fun e he hek => h (List.mem_map.mpr ⟨e, he, hek⟩)

theorem isEmpty_false_of_ne_nil {b : List Nat} (h : b ≠ []) : b.isEmpty = false := by
  cases b with
  | nil => exact absurd rfl h
  | cons x xs => rfl

theorem nodup_keys_registerAll {α : Type} (reg : Registry α)
    (ss : List (Serializer α)) (h : (reg.map Prod.fst).Nodup) :
    ((registerAll reg ss).map Prod.fst).Nodup := by
  induction ss generalizing reg with
  | nil => exact h
  | cons s ss ih => exact ih _ (nodup_keys_setA _ _ h)

theorem corruptObject_slots (p : Pack) (h bad : List Nat) :
    (p.corruptObject h bad).slots = p.slots := rfl

theorem corruptObject_objects (p : Pack) (h bad : List Nat) :
    (p.corruptObject h bad).objects = setA h bad p.objects := rfl

/-- Load on a valid present key with readable entry bytes reduces to the
checksum check, the dependency check, and decoding, in that order. -/
theorem load_eq_of_parts {α : Type} (p : Pack) (reg : Registry α)
    (env : String → Option String) (key : Option String) (slot : Slot)
    (b : List Nat)
    (hk : validKey key = true)
    (hs : lookupA key p.slots = some slot)
    (hb : lookupA slot.pack_object p.objects = some b) :
    p.load reg env key =
      (if b.isEmpty then .error .SlotKeyError
       else if checksumBytes b ≠ slot.checksum then .error .MLIOPackSlotWrongChecksum
       else if slot.dependencies.any (fun d => !(d.2.is_satisfied env)) then
         .error .MLIODependenciesNotSatisfied
       else
         match get_serializer_by_id reg slot.serializer_id with
         | .error e => .error e
         | .ok s => .ok (s.deserialize b)) := by
  unfold Pack.load
  rw [if_neg (by rw [hk]; simp)]
  simp only [hs, hb]

/-- C3: for every key already present in the Slot Index and every object
(of any value), `dump` fails with `SlotKeyError`: the duplicate-key check
comes before serializer resolution, so dump never overwrites a slot. -/
theorem claim_C3_dump_on_existing_key_fails {α : Type} (p : Pack) (reg : Registry α)
    (key : Option String) (o : α) (slot : Slot)
    (hs : lookupA key p.slots = some slot) :
    p.dump reg key o = .error .SlotKeyError := by
  unfold Pack.dump
  by_cases hv : validKey key = false
  · rw [if_pos hv]
  · rw [if_neg hv, if_pos (by rw [hs]; rfl)]

/-- C3 witness: dumping a different object onto the occupied key `"slot1"` of
`packA` fails with `SlotKeyError`. -/
theorem claim_C3_witness :
    lookupA (some "slot1") packA.slots = some ⟨[0, 1], [0, 1], "raw", []⟩ ∧
    packA.dump testReg (some "slot1") ([2] : List Nat) = .error .SlotKeyError :=
  ⟨rfl, claim_C3_dump_on_existing_key_fails packA testReg (some "slot1") [2]
    ⟨[0, 1], [0, 1], "raw", []⟩ rfl⟩

/-- C6: on a key that is absent, the empty string, or `None`, `load` and
`remove` fail with `SlotKeyError`, while `has_slot` and the membership test
return false without raising; and on every pack state, `None` and the empty
string are never slot keys. -/
theorem claim_C6_invalid_or_absent_keys {α : Type} (p : Pack) (reg : Registry α)
    (env : String → Option String) (key : Option String)
    (h : validKey key = false ∨ lookupA key p.slots = none) :
    p.load reg env key = .error .SlotKeyError ∧
    p.remove key = .error .SlotKeyError ∧
    p.has_slot key = false ∧
    p.contains key = false ∧
    (∀ q : Pack, q.has_slot none = false ∧ q.has_slot (some "") = false ∧
      q.contains none = false ∧ q.contains (some "") = false) := by
  have hvnone : validKey none = false := rfl
  have hvempty : validKey (some "") = false := rfl
  have hload : p.load reg env key = .error .SlotKeyError := by
    unfold Pack.load
    rcases h with h | h
    · rw [if_pos h]
    · by_cases hv : validKey key = false
      · rw [if_pos hv]
      · rw [if_neg hv, h]
  have hrem : p.remove key = .error .SlotKeyError := by
    unfold Pack.remove
    rcases h with h | h
    · rw [if_pos h]
    · by_cases hv : validKey key = false
      · rw [if_pos hv]
      · rw [if_neg hv, h]
  have hhs : p.has_slot key = false := by
    unfold Pack.has_slot
    rcases h with h | h
    · simp [h]
    · simp [h]
  refine ⟨hload, hrem, hhs, hhs, ?_⟩
  intro q
  exact ⟨by simp [Pack.has_slot, hvnone], by simp [Pack.has_slot, hvempty],
    by simp [Pack.contains, Pack.has_slot, hvnone],
    by simp [Pack.contains, Pack.has_slot, hvempty]⟩

/-- C6 witness: on `packA`, the unknown key `"unknown"` makes `load` and
`remove` fail with `SlotKeyError` and the queries answer false, and `None` and
the empty string are never slot keys. -/
theorem claim_C6_witness :
    lookupA (some "unknown") packA.slots = none ∧
    (packA.load testReg envTwo (some "unknown") = .error .SlotKeyError ∧
      packA.remove (some "unknown") = .error .SlotKeyError ∧
      packA.has_slot (some "unknown") = false ∧
      packA.contains (some "unknown") = false ∧
      (∀ q : Pack, q.has_slot none = false ∧ q.has_slot (some "") = false ∧
        q.contains none = false ∧ q.contains (some "") = false)) :=
  ⟨rfl, claim_C6_invalid_or_absent_keys packA testReg envTwo (some "unknown")
    (Or.inr rfl)⟩

/-- C7: `find_suitable_serializer` returns the first registered serializer (in
registration order) whose `can_process` accepts the object, and raises
`UnknownObjectType` when no registered serializer accepts it. -/
theorem claim_C7_find_suitable_first_match {α : Type} (reg : Registry α) (o : α) :
    (∀ pre e post, reg = pre ++ e :: post →
        (∀ q ∈ pre, q.2.can_process o = false) → e.2.can_process o = true →
        find_suitable_serializer reg o = .ok e.2) ∧
    ((∀ q ∈ reg, q.2.can_process o = false) →
        find_suitable_serializer reg o = .error .UnknownObjectType) := by
  constructor
  · rintro pre e post rfl hpre he
    have hskip : ∀ s ∈ pre.map Prod.snd, s.can_process o = false := by
      intro s hs
      rcases List.mem_map.mp hs with ⟨q, hq, rfl⟩
      exact hpre q hq
    unfold find_suitable_serializer
    rw [List.map_append, List.map_cons, findFirstSuitable_append_skip o hskip]
    simp [findFirstSuitable, he]
  · intro hall
    have hnone : findFirstSuitable o (reg.map Prod.snd) = none := by
      rw [findFirstSuitable_eq_none_iff]
      intro s hs
      rcases List.mem_map.mp hs with ⟨q, hq, rfl⟩
      exact hall q hq
    unfold find_suitable_serializer
    rw [hnone]

/-- C7 witness: in a registry where the picky serializer (which rejects `[]`)
is registered before the raw one, resolving `[]` skips the picky serializer
and returns the raw one. -/
theorem claim_C7_witness :
    pickySerializer.can_process ([] : List Nat) = false ∧
    rawSerializer.can_process ([] : List Nat) = true ∧
    find_suitable_serializer twoReg ([] : List Nat) = .ok rawSerializer :=
  ⟨rfl, rfl,
    (claim_C7_find_suitable_first_match twoReg []).1 [("picky", pickySerializer)]
      ("raw", rawSerializer) [] rfl
      (fun q hq => by
        rw [List.mem_singleton] at hq
        subst hq
        rfl)
      rfl⟩

/-- C9: `get_serializer_by_id` is an exact lookup over everything ever
registered: it raises `UnknownSerializer` exactly when the id was never
registered, and otherwise returns a serializer that was registered under
exactly that id. -/
theorem claim_C9_get_by_id_exact_lookup {α : Type} (ss : List (Serializer α))
    (i : String) :
    (i ∉ ss.map Serializer.serializer_id →
        get_serializer_by_id (registerAll ([] : Registry α) ss) i
          = .error .UnknownSerializer) ∧
    (i ∈ ss.map Serializer.serializer_id →
        ∃ s, s ∈ ss ∧ s.serializer_id = i ∧
          get_serializer_by_id (registerAll ([] : Registry α) ss) i = .ok s) := by
  constructor
  · intro h
    have hk : i ∉ (registerAll ([] : Registry α) ss).map Prod.fst := by
      rw [mem_keys_registerAll]
      rintro (h' | h')
      · simp at h'
      · exact h h'
    unfold get_serializer_by_id
    rw [lookupA_eq_none_of_not_mem_keys hk]
  · intro h
    have hk : i ∈ (registerAll ([] : Registry α) ss).map Prod.fst :=
      (mem_keys_registerAll i _ ss).mpr (Or.inr h)
    cases hlk : lookupA i (registerAll ([] : Registry α) ss) with
    | none =>
      exact absurd hlk (by
        rw [lookupA_eq_none_iff]
        intro hall
        rcases List.mem_map.mp hk with ⟨e, he, hei⟩
        exact hall e he hei)
    | some s =>
      rcases entries_registerAll _ ss (lookupA_mem hlk) with h' | h'
      · simp at h'
      · exact ⟨s, h'.1, h'.2, by unfold get_serializer_by_id; rw [hlk]⟩

/-- C9 witness: after registering the picky and raw serializers, looking up
the never-registered id `"nope"` fails with `UnknownSerializer`. -/
theorem claim_C9_witness :
    ("nope" ∉ [pickySerializer, rawSerializer].map Serializer.serializer_id) ∧
    get_serializer_by_id
        (registerAll ([] : Registry (List Nat)) [pickySerializer, rawSerializer])
        "nope" = .error .UnknownSerializer :=
  ⟨by decide,
    (claim_C9_get_by_id_exact_lookup [pickySerializer, rawSerializer] "nope").1
      (by decide)⟩

/-- C10: re-registering a serializer under an already-registered id returns
the argument unchanged, keeps the registry's key order exactly as it was (the
id is not moved to the end), and stores the new serializer under that id. -/
theorem claim_C10_reregister_keeps_position {α : Type} (reg : Registry α)
    (s : Serializer α) (h : s.serializer_id ∈ reg.map Prod.fst) :
    (register_serializer reg s).2 = s ∧
    (register_serializer reg s).1.map Prod.fst = reg.map Prod.fst ∧
    lookupA s.serializer_id (register_serializer reg s).1 = some s :=
  ⟨rfl, keys_setA_of_mem s h, lookupA_setA_self _ _ _⟩

/-- C10 witness: re-registering id `"raw"` (first of two) with a different
serializer keeps the key order `["raw", "picky"]` and replaces the stored
serializer. -/
theorem claim_C10_witness :
    ("raw" ∈ regRawFirst.map Prod.fst) ∧
    (register_serializer regRawFirst rawSerializer2).2 = rawSerializer2 ∧
    (register_serializer regRawFirst rawSerializer2).1.map Prod.fst
      = regRawFirst.map Prod.fst ∧
    lookupA "raw" (register_serializer regRawFirst rawSerializer2).1
      = some rawSerializer2 := by
  have h : "raw" ∈ regRawFirst.map Prod.fst := by decide
  obtain ⟨h1, h2, h3⟩ := claim_C10_reregister_keeps_position regRawFirst rawSerializer2 h
  exact ⟨h, h1, h2, h3⟩

/-- C4: modifying the stored bytes of an object-store entry to different
non-empty bytes after dump makes `load` of every slot referencing that entry
(whose stored checksum matches the original bytes) fail with the integrity
error `MLIOPackSlotWrongChecksum`; the error is raised before serializer
resolution, so no deserialization ever sees the corrupt bytes. -/
theorem claim_C4_corrupted_entry_fails_checksum {α : Type} (p : Pack)
    (reg : Registry α) (env : String → Option String) (key : Option String)
    (slot : Slot) (b bad : List Nat)
    (hk : validKey key = true)
    (hs : lookupA key p.slots = some slot)
    (hb : lookupA slot.pack_object p.objects = some b)
    (hc : slot.checksum = checksumBytes b)
    (hbb : bad ≠ b) (hbe : bad ≠ []) :
    (p.corruptObject slot.pack_object bad).load reg env key
      = .error .MLIOPackSlotWrongChecksum := by
  have hcc : checksumBytes bad ≠ slot.checksum := by
    rw [hc]
    exact fun hh => hbb hh
  rw [load_eq_of_parts _ reg env key slot bad hk
      (by rw [corruptObject_slots]; exact hs)
      (by rw [corruptObject_objects]; exact lookupA_setA_self _ _ _),
    if_neg (by simp [isEmpty_false_of_ne_nil hbe]), if_pos hcc]

/-- C4 witness: overwriting the entry of `packA`'s slot `"slot1"` with the
bytes `[9]` makes loading `"slot1"` fail with `MLIOPackSlotWrongChecksum`. -/
theorem claim_C4_witness :
    lookupA (some "slot1") packA.slots = some ⟨[0, 1], [0, 1], "raw", []⟩ ∧
    (packA.corruptObject [0, 1] [9]).load testReg envTwo (some "slot1")
      = .error .MLIOPackSlotWrongChecksum :=
  ⟨rfl, claim_C4_corrupted_entry_fails_checksum packA testReg envTwo
    (some "slot1") ⟨[0, 1], [0, 1], "raw", []⟩ [0, 1] [9]
    rfl rfl rfl rfl (by decide) (by decide)⟩

/-- C5: a slot with at least one attached dependency descriptor unsatisfied in
the current environment fails `load` with `MLIODependenciesNotSatisfied` even
though its checksum verifies; the error is raised before serializer
resolution, so the stored bytes are never deserialized. -/
theorem claim_C5_unsatisfied_dependency_fails_load {α : Type} (p : Pack)
    (reg : Registry α) (env : String → Option String) (key : Option String)
    (slot : Slot) (b : List Nat) (d : String × ModuleVersionContextDependency)
    (hk : validKey key = true)
    (hs : lookupA key p.slots = some slot)
    (hb : lookupA slot.pack_object p.objects = some b)
    (hbe : b ≠ [])
    (hc : checksumBytes b = slot.checksum)
    (hd : d ∈ slot.dependencies)
    (hu : d.2.is_satisfied env = false) :
    p.load reg env key = .error .MLIODependenciesNotSatisfied := by
  have hany : slot.dependencies.any (fun d => !(d.2.is_satisfied env)) = true :=
    List.any_eq_true.mpr ⟨d, hd, by rw [hu]; rfl⟩
  rw [load_eq_of_parts p reg env key slot b hk hs hb,
    if_neg (by simp [isEmpty_false_of_ne_nil hbe]),
    if_neg (by rw [hc]; simp), if_pos hany]

/-- C5 witness: slot `"slot1"` of `packDep` carries the dependency
`moduleone==1.1.0`, unsatisfied in an environment with `moduleone` at
`2.1.0`, so loading it fails with `MLIODependenciesNotSatisfied` although its
checksum is valid. -/
theorem claim_C5_witness :
    depOne.is_satisfied envTwo = false ∧
    checksumBytes [0, 1] = ([0, 1] : List Nat) ∧
    packDep.load testReg envTwo (some "slot1") = .error .MLIODependenciesNotSatisfied :=
  ⟨rfl, rfl, claim_C5_unsatisfied_dependency_fails_load packDep testReg envTwo
    (some "slot1") ⟨[0, 1], [0, 1], "raw", [(depOne.dependency_id, depOne)]⟩
    [0, 1] (depOne.dependency_id, depOne)
    rfl rfl rfl (by decide) rfl (List.mem_cons_self _ _) rfl⟩

/-- Successful `dump` characterized: the key was valid and absent, a
serializer was resolved, and the result appends one slot and writes the entry
only when no non-empty entry with that hash existed. -/
theorem dump_ok_spec {α : Type} {p p' : Pack} {reg : Registry α}
    {key : Option String} {o : α} (hd : p.dump reg key o = .ok p') :
    validKey key = true ∧ lookupA key p.slots = none ∧
    ∃ s, find_suitable_serializer reg o = .ok s ∧
      p'.slots = p.slots ++
              [(key, ⟨hashBytes (s.serialize o), checksumBytes (s.serialize o),
                s.serializer_id, []⟩)] ∧
      p'.objects = (if hasEntry p.objects (hashBytes (s.serialize o)) then p.objects
                    else setA (hashBytes (s.serialize o)) (s.serialize o) p.objects) := by
  unfold Pack.dump at hd
  by_cases hv : validKey key = false
  · rw [if_pos hv] at hd
    cases hd
  rw [if_neg hv] at hd
  by_cases hms : (lookupA key p.slots).isSome
  · rw [if_pos hms] at hd
    cases hd
  rw [if_neg hms] at hd
  have hvk : validKey key = true := by
    cases hvv : validKey key
    · exact absurd hvv hv
    · rfl
  have hnone : lookupA key p.slots = none := by
    cases hlk : lookupA key p.slots
    · rfl
    · exact absurd (by rw [hlk]; rfl) hms
  cases hfind : find_suitable_serializer reg o with
  | error e =>
    rw [hfind] at hd
    cases hd
  | ok s =>
    rw [hfind] at hd
    refine ⟨hvk, hnone, s, rfl, ?_, ?_⟩ <;> (cases hd; rfl)

/-- The deduplicating write of `dump` leaves the content readable under its
hash, provided every pre-existing non-empty entry is content-addressed. -/
theorem lookup_dedup_objects (p : Pack) (b : List Nat)
    (hwf : ∀ e ∈ p.objects, e.2 ≠ [] → hashBytes e.2 = e.1) :
    lookupA (hashBytes b)
      (if hasEntry p.objects (hashBytes b) then p.objects
       else setA (hashBytes b) b p.objects) = some b := by
  by_cases hhe : hasEntry p.objects (hashBytes b) = true
  · rw [if_pos hhe]
    unfold hasEntry at hhe
    cases hlk : lookupA (hashBytes b) p.objects with
    | none =>
      rw [hlk] at hhe
      exact absurd hhe Bool.false_ne_true
    | some b0 =>
      rw [hlk] at hhe
      have hb0 : b0 ≠ [] := by
        intro hnil
        subst hnil
        exact absurd hhe Bool.false_ne_true
      exact congrArg some (hwf (hashBytes b, b0) (lookupA_mem hlk) hb0)
  · rw [if_neg hhe]
    exact lookupA_setA_self _ _ _

/-- The deduplicating write of `dump` preserves distinctness of entry names. -/
theorem nodup_dedup_objects (p : Pack) (b : List Nat)
    (hnod : (p.objects.map Prod.fst).Nodup) :
    ((if hasEntry p.objects (hashBytes b) then p.objects
      else setA (hashBytes b) b p.objects).map Prod.fst).Nodup := by
  by_cases hhe : hasEntry p.objects (hashBytes b) = true
  · rwa [if_pos hhe]
  · rw [if_neg hhe]
    exact nodup_keys_setA _ _ hnod

theorem hasEntry_of_lookup {objects : List (List Nat × List Nat)}
    {h b : List Nat} (hlk : lookupA h objects = some b) (hb : b ≠ []) :
    hasEntry objects h = true := by
  unfold hasEntry
  rw [hlk]
  simp [isEmpty_false_of_ne_nil hb]

/-- In an id-consistent duplicate-free registry, the serializer resolved by
`find_suitable_serializer` is recovered exactly by `get_serializer_by_id`. -/
theorem get_by_id_of_find {α : Type} {reg : Registry α} {o : α} {s : Serializer α}
    (hids : ∀ e ∈ reg, e.2.serializer_id = e.1)
    (hnd : (reg.map Prod.fst).Nodup)
    (hf : find_suitable_serializer reg o = .ok s) :
    get_serializer_by_id reg s.serializer_id = .ok s ∧ s.can_process o = true ∧
      ∃ e ∈ reg, e.2 = s := by
  unfold find_suitable_serializer at hf
  cases hff : findFirstSuitable o (reg.map Prod.snd) with
  | none =>
    rw [hff] at hf
    cases hf
  | some s' =>
    rw [hff] at hf
    have hss : s' = s := by cases hf; rfl
    subst hss
    obtain ⟨hm, hc⟩ := findFirstSuitable_mem hff
    rcases List.mem_map.mp hm with ⟨e, he, hes⟩
    have hid := hids e he
    have hmem : (s'.serializer_id, s') ∈ reg := by
      have hee : e = (s'.serializer_id, s') := by
        obtain ⟨e1, e2⟩ := e
        simp only at hes hid
        rw [hes] at hid ⊢
        rw [hid]
      rwa [hee] at he
    refine ⟨?_, hc, ⟨e, he, hes⟩⟩
    unfold get_serializer_by_id
    rw [lookupA_of_mem_nodup hnd hmem]

/-- C1: on a pack whose object store is content-addressed, with a
duplicate-free id-consistent registry of round-tripping serializers producing
non-empty bytes, a successful `dump(k, o)` followed by `load(k)` returns
exactly `o`. -/
theorem claim_C1_dump_load_roundtrip {α : Type} (p p' : Pack) (reg : Registry α)
    (env : String → Option String) (key : Option String) (o : α)
    (hids : ∀ e ∈ reg, e.2.serializer_id = e.1)
    (hnd : (reg.map Prod.fst).Nodup)
    (hrt : ∀ e ∈ reg, ∀ x, e.2.can_process x = true →
        e.2.deserialize (e.2.serialize x) = x)
    (hnb : ∀ e ∈ reg, ∀ x, e.2.serialize x ≠ [])
    (hwf : ∀ e ∈ p.objects, e.2 ≠ [] → hashBytes e.2 = e.1)
    (hd : p.dump reg key o = .ok p') :
    p'.load reg env key = .ok o := by
  obtain ⟨hvk, hnone, s, hfind, hps, hpo⟩ := dump_ok_spec hd
  obtain ⟨hget, hcp, e, he, hes⟩ := get_by_id_of_find hids hnd hfind
  have hbne : s.serialize o ≠ [] := hes ▸ hnb e he o
  have hdes : s.deserialize (s.serialize o) = o := by
    rw [← hes]
    exact hrt e he o (by rw [hes]; exact hcp)
  have hslots : lookupA key p'.slots =
      some ⟨hashBytes (s.serialize o), checksumBytes (s.serialize o),
        s.serializer_id, []⟩ := by
    rw [hps, lookupA_append, hnone]
    simp
  have hobj : lookupA (hashBytes (s.serialize o)) p'.objects
      = some (s.serialize o) := by
    rw [hpo]
    exact lookup_dedup_objects p (s.serialize o) hwf
  rw [load_eq_of_parts _ reg env key _ (s.serialize o) hvk hslots hobj]
  simp [isEmpty_false_of_ne_nil hbne, hget, hdes]

/-- C1 witness: dumping `[1]` into slot `"slot1"` of an empty pack and loading
it back returns `[1]`. -/
theorem claim_C1_witness :
    emptyPack.dump testReg (some "slot1") ([1] : List Nat) = .ok packA ∧
    packA.load testReg envTwo (some "slot1") = .ok [1] :=
  ⟨rfl, claim_C1_dump_load_roundtrip emptyPack packA testReg envTwo
    (some "slot1") [1]
    (by intro e he; simp only [testReg, List.mem_singleton] at he; subst he; rfl)
    (by decide)
    (by intro e he x hx; simp only [testReg, List.mem_singleton] at he; subst he; rfl)
    (by intro e he x; simp only [testReg, List.mem_singleton] at he; subst he
        exact List.cons_ne_nil 0 x)
    (by intro e he; simp [emptyPack] at he)
    rfl⟩

/-- C2 (amended): dumping two different keys with byte-identical serialized
content yields exactly one physical object-store entry referenced by both
slots, and after removing one of the two keys the other still loads the
original object — the remove leaves the shared entry intact (it erases the
entry only when no remaining slot references that content hash). -/
theorem claim_C2_dedup_shared_entry_and_remove {α : Type} (p p1 p2 : Pack)
    (reg : Registry α) (env : String → Option String) (k1 k2 : Option String)
    (o1 o2 : α) (s1 s2 : Serializer α)
    (hids : ∀ e ∈ reg, e.2.serializer_id = e.1)
    (hnd : (reg.map Prod.fst).Nodup)
    (hrt : ∀ e ∈ reg, ∀ x, e.2.can_process x = true →
        e.2.deserialize (e.2.serialize x) = x)
    (hnb : ∀ e ∈ reg, ∀ x, e.2.serialize x ≠ [])
    (hwf : ∀ e ∈ p.objects, e.2 ≠ [] → hashBytes e.2 = e.1)
    (hnod : (p.objects.map Prod.fst).Nodup)
    (hkk : k1 ≠ k2)
    (h1 : p.dump reg k1 o1 = .ok p1)
    (h2 : p1.dump reg k2 o2 = .ok p2)
    (hf1 : find_suitable_serializer reg o1 = .ok s1)
    (hf2 : find_suitable_serializer reg o2 = .ok s2)
    (hbb : s1.serialize o1 = s2.serialize o2) :
    (p2.objects.filter
        (fun e => decide (e.1 = hashBytes (s1.serialize o1)))).length = 1 ∧
    (∃ slot1, lookupA k1 p2.slots = some slot1 ∧
        slot1.pack_object = hashBytes (s1.serialize o1)) ∧
    (∃ slot2, lookupA k2 p2.slots = some slot2 ∧
        slot2.pack_object = hashBytes (s1.serialize o1)) ∧
    (∃ p3, p2.remove k2 = .ok p3 ∧ p3.objects = p2.objects ∧
        p3.load reg env k1 = .ok o1) := by
  obtain ⟨hvk1, hnone1, s1x, hfind1, hp1s, hp1o⟩ := dump_ok_spec h1
  rw [hf1] at hfind1
  injection hfind1 with hs1x
  subst hs1x
  obtain ⟨hvk2, hnone2, s2x, hfind2, hp2s, hp2o⟩ := dump_ok_spec h2
  rw [hf2] at hfind2
  injection hfind2 with hs2x
  subst hs2x
  obtain ⟨hget1, hcp1, e1, he1, hes1⟩ := get_by_id_of_find hids hnd hf1
  have hbne : s1.serialize o1 ≠ [] := hes1 ▸ hnb e1 he1 o1
  have hdes1 : s1.deserialize (s1.serialize o1) = o1 := by
    rw [← hes1]
    exact hrt e1 he1 o1 (by rw [hes1]; exact hcp1)
  have hlk1 : lookupA (hashBytes (s1.serialize o1)) p1.objects
      = some (s1.serialize o1) := by
    rw [hp1o]
    exact lookup_dedup_objects p (s1.serialize o1) hwf
  have hnod1 : (p1.objects.map Prod.fst).Nodup := by
    rw [hp1o]
    exact nodup_dedup_objects p (s1.serialize o1) hnod
  have hhe1 : hasEntry p1.objects (hashBytes (s1.serialize o1)) = true :=
    hasEntry_of_lookup hlk1 hbne
  have hp2o' : p2.objects = p1.objects := by
    rw [hp2o, ← hbb, if_pos hhe1]
  have hlkA : lookupA k1 p2.slots
      = some ⟨hashBytes (s1.serialize o1), checksumBytes (s1.serialize o1),
          s1.serializer_id, []⟩ := by
    rw [hp2s, lookupA_append, hp1s, lookupA_append, hnone1]
    simp [(fun h => hkk h.symm : ¬(k2 = k1))]
  have hlkB : lookupA k2 p2.slots
      = some ⟨hashBytes (s2.serialize o2), checksumBytes (s2.serialize o2),
          s2.serializer_id, []⟩ := by
    rw [hp2s, lookupA_append, hnone2]
    simp
  have hmemA : (k1, (⟨hashBytes (s1.serialize o1), checksumBytes (s1.serialize o1),
      s1.serializer_id, []⟩ : Slot)) ∈ p2.slots := by
    rw [hp2s, hp1s]
    exact List.mem_append.mpr (Or.inl (List.mem_append.mpr
      (Or.inr (List.mem_singleton.mpr rfl))))
  have hany : (p2.slots.filter (fun e => decide (e.1 ≠ k2))).any
      (fun e => decide (e.2.pack_object
        = hashBytes (s2.serialize o2))) = true := by
    refine List.any_eq_true.mpr ⟨_, List.mem_filter.mpr ⟨hmemA, ?_⟩, ?_⟩
    · simp [hkk]
    · simp [← hbb]
  have hrem : p2.remove k2 = .ok ⟨p2.slots.filter (fun e => decide (e.1 ≠ k2)),
      p2.objects⟩ := by
    unfold Pack.remove
    rw [if_neg (by rw [hvk2]; simp)]
    simp only [hlkB]
    rw [if_pos hany]
  refine ⟨?_, ?_, ?_, ?_⟩
  · rw [hp2o']
    exact count_named_one_of_nodup hnod1 hlk1
  · exact ⟨_, hlkA, rfl⟩
  · exact ⟨_, hlkB, by rw [← hbb]⟩
  · refine ⟨_, hrem, rfl, ?_⟩
    have hlkA' : lookupA k1 (p2.slots.filter (fun e => decide (e.1 ≠ k2)))
        = some ⟨hashBytes (s1.serialize o1), checksumBytes (s1.serialize o1),
            s1.serializer_id, []⟩ := by
      rw [lookupA_filter_ne hkk, hlkA]
    have hobj3 : lookupA (hashBytes (s1.serialize o1)) p2.objects
        = some (s1.serialize o1) := by
      rw [hp2o']
      exact hlk1
    rw [load_eq_of_parts _ reg env k1 _ (s1.serialize o1) hvk1 hlkA' hobj3]
    simp [isEmpty_false_of_ne_nil hbne, hget1, hdes1]

/-- C2 counterexample: the claim's final clause says `remove` "erases the
underlying object-store entry without checking for other referencing slots";
in the concrete two-slots-one-entry scenario the removed slot's entry is left
completely intact (content `[0, 1]`, not a zero-length tombstone), so that
clause is false of the modelled code. -/
theorem claim_C2_counterexample :
    packA.dump testReg (some "slot2") ([1] : List Nat) = .ok sharedPack ∧
    sharedPack.remove (some "slot2") = .ok packA ∧
    packA.objects = [([0, 1], [0, 1])] ∧
    ([([0, 1], [0, 1])] : List (List Nat × List Nat)) ≠ [([0, 1], [])] :=
  ⟨rfl, rfl, rfl, by decide⟩

/-- C2 witness: the amended claim at the concrete shared-content scenario:
dumping `[1]` under `"slot1"` and `"slot2"`, the single entry is shared, and
after removing `"slot2"`, loading `"slot1"` still returns `[1]`. -/
theorem claim_C2_witness :
    (sharedPack.objects.filter
        (fun e => decide (e.1 = hashBytes (rawSerializer.serialize [1])))).length = 1 ∧
    (∃ slot1, lookupA (some "slot1") sharedPack.slots = some slot1 ∧
        slot1.pack_object = hashBytes (rawSerializer.serialize [1])) ∧
    (∃ slot2, lookupA (some "slot2") sharedPack.slots = some slot2 ∧
        slot2.pack_object = hashBytes (rawSerializer.serialize [1])) ∧
    (∃ p3, sharedPack.remove (some "slot2") = .ok p3 ∧
        p3.objects = sharedPack.objects ∧
        p3.load testReg envTwo (some "slot1") = .ok [1]) :=
  claim_C2_dedup_shared_entry_and_remove emptyPack packA sharedPack testReg
    envTwo (some "slot1") (some "slot2") [1] [1] rawSerializer rawSerializer
    (by intro e he; simp only [testReg, List.mem_singleton] at he; subst he; rfl)
    (by decide)
    (by intro e he x hx; simp only [testReg, List.mem_singleton] at he; subst he; rfl)
    (by intro e he x; simp only [testReg, List.mem_singleton] at he; subst he
        exact List.cons_ne_nil 0 x)
    (by intro e he; simp [emptyPack] at he)
    (by simp [emptyPack])
    (by decide)
    rfl rfl rfl rfl rfl

/-- A name is an existing pack object exactly when its entry reads back with
non-empty content (over a store with distinct entry names). -/
theorem mem_existing_iff (q : Pack) (hnod : (q.objects.map Prod.fst).Nodup)
    (h : List Nat) :
    h ∈ q.existing_pack_objects ↔
      ∃ b, lookupA h q.objects = some b ∧ b ≠ [] := by
  unfold Pack.existing_pack_objects
  constructor
  · intro hm
    rcases List.mem_map.mp hm with ⟨e, he, hef⟩
    rw [List.mem_filter] at he
    have hne : e.2 ≠ [] := by
      intro hnil
      rw [hnil] at he
      simp at he
    refine ⟨e.2, ?_, hne⟩
    have hmm : (h, e.2) ∈ q.objects := by
      obtain ⟨e1, e2⟩ := e
      simp only at hef
      subst hef
      exact he.1
    exact lookupA_of_mem_nodup hnod hmm
  · rintro ⟨b, hlk, hb⟩
    exact List.mem_map.mpr ⟨(h, b),
      List.mem_filter.mpr ⟨lookupA_mem hlk,
        by simp [isEmpty_false_of_ne_nil hb]⟩, rfl⟩

theorem lookupA_eraseAll (os : List (List Nat × List Nat))
    (ds : List (List Nat)) (h : List Nat) :
    lookupA h (eraseAll os ds) =
      if h ∈ ds then some [] else lookupA h os := by
  induction ds generalizing os with
  | nil => simp [eraseAll]
  | cons d ds ih =>
    simp only [eraseAll, ih]
    by_cases hd : h ∈ ds
    · rw [if_pos hd, if_pos (List.mem_cons.mpr (Or.inr hd))]
    · rw [if_neg hd]
      by_cases hhd : h = d
      · subst hhd
        rw [if_pos (List.mem_cons.mpr (Or.inl rfl)), lookupA_setA_self]
      · rw [if_neg (fun hmem => (List.mem_cons.mp hmem).elim hhd hd),
          lookupA_setA_ne _ _ hhd]

theorem nodup_keys_eraseAll (os : List (List Nat × List Nat))
    (ds : List (List Nat)) (hnod : (os.map Prod.fst).Nodup) :
    ((eraseAll os ds).map Prod.fst).Nodup := by
  induction ds generalizing os with
  | nil => exact hnod
  | cons d ds ih => exact ih _ (nodup_keys_setA _ _ hnod)

/-- C8 (amended): after `remove(key)`, when no remaining slot references the
removed slot's content hash, the entry is erased to zero-length content under
its still-existing name; `_existing_pack_objects` enumerates exactly the
names with non-empty content; and the compaction pass returns exactly the
existing entries referenced by no slot, and afterwards exactly the referenced
existing entries remain. -/
theorem claim_C8_tombstone_and_compaction (p p' : Pack) (key : Option String)
    (slot : Slot)
    (hs : lookupA key p.slots = some slot)
    (hr : p.remove key = .ok p')
    (hunref : (p.slots.filter (fun e => decide (e.1 ≠ key))).any
        (fun e => decide (e.2.pack_object = slot.pack_object)) = false) :
    lookupA slot.pack_object p'.objects = some [] ∧
    (∀ q : Pack, (q.objects.map Prod.fst).Nodup →
      ∀ h, h ∈ q.existing_pack_objects ↔
        ∃ b, lookupA h q.objects = some b ∧ b ≠ []) ∧
    (∀ q : Pack, (q.cleanup_dangling_pack_objects).2 =
        q.existing_pack_objects.filter
          (fun h => !decide (h ∈ q.referenced_objects))) ∧
    (∀ q : Pack, (q.objects.map Prod.fst).Nodup →
      ∀ h, h ∈ (q.cleanup_dangling_pack_objects).1.existing_pack_objects ↔
        (h ∈ q.existing_pack_objects ∧ h ∈ q.referenced_objects)) := by
  refine ⟨?_, fun q hq h => mem_existing_iff q hq h, fun q => rfl, ?_⟩
  · unfold Pack.remove at hr
    by_cases hv : validKey key = false
    · rw [if_pos hv] at hr
      cases hr
    rw [if_neg hv] at hr
    simp only [hs] at hr
    rw [if_neg (by rw [hunref]; simp)] at hr
    cases hr
    exact lookupA_setA_self _ _ _
  · intro q hq h
    have hnod' := nodup_keys_eraseAll q.objects
      (q.existing_pack_objects.filter
        (fun h => !decide (h ∈ q.referenced_objects))) hq
    rw [mem_existing_iff _ hnod' h]
    rw [show (q.cleanup_dangling_pack_objects).1.objects =
      eraseAll q.objects (q.existing_pack_objects.filter
        (fun h => !decide (h ∈ q.referenced_objects))) from rfl]
    rw [lookupA_eraseAll]
    by_cases hdang : h ∈ q.existing_pack_objects.filter
        (fun h => !decide (h ∈ q.referenced_objects))
    · rw [if_pos hdang]
      have hnotref : ¬(h ∈ q.referenced_objects) := by
        have h2 := (List.mem_filter.mp hdang).2
        simpa using h2
      constructor
      · rintro ⟨b, hb, hbne⟩
        injection hb with hb'
        exact absurd hb'.symm hbne
      · rintro ⟨hex, href⟩
        exact absurd href hnotref
    · rw [if_neg hdang, ← mem_existing_iff q hq h]
      constructor
      · intro hex
        refine ⟨hex, ?_⟩
        by_contra hnr
        exact hdang (List.mem_filter.mpr ⟨hex, by simpa using hnr⟩)
      · exact fun hh => hh.1

/-- C8 counterexample: the claim asserts that after every `remove(key)` the
entry referenced by the removed slot has zero-length content; in the concrete
shared-content scenario (two slots over one entry, remove one) the entry still
reads back with its full original content. -/
theorem claim_C8_counterexample :
    sharedPack.remove (some "slot2") = .ok packA ∧
    lookupA (hashBytes (rawSerializer.serialize [1])) packA.objects
      = some [0, 1] ∧
    (some ([0, 1] : List Nat)) ≠ some [] :=
  ⟨rfl, rfl, by decide⟩

/-- C8 witness: removing `"slot2"` of `packTwoObjs` (whose entry is referenced
by no other slot) leaves a zero-length tombstone under the entry's name. -/
theorem claim_C8_witness :
    lookupA (some "slot2") packTwoObjs.slots = some ⟨[0, 2], [0, 2], "raw", []⟩ ∧
    packTwoObjs.remove (some "slot2") = .ok packTombstone ∧
    lookupA [0, 2] packTombstone.objects = some [] :=
  ⟨rfl, rfl,
    (claim_C8_tombstone_and_compaction packTwoObjs packTombstone (some "slot2")
      ⟨[0, 2], [0, 2], "raw", []⟩ rfl rfl rfl).1⟩

end Milo
